import Mathlib

/-!
Verification of the clash job orchestrator (src/python/pyclash/clash.py).

The Python source is shallowly embedded: pure string manipulation becomes
functions on lists of characters, the stateful creation/rollback sequence of
Job.run becomes an explicit state-passing simulation, and the unbounded
polling loops (Job.attach, Job.clean_up, JobGroup.wait) become fuel-indexed
loop functions over discrete time measured in seconds.
-/

namespace Clash

/-! ## Argument translation (clash.py, translate_args_to_script, lines 354-361) -/

/-- The single-quote character used by translate_args_to_script when wrapping
an argument that contains a space. -/
def squote : Char := Char.ofNat 39

/-- One iteration of the loop body of translate_args_to_script: an argument
containing a space is wrapped in single quotes, any other argument is kept
bare. Arguments are modelled as lists of characters. -/
def renderArg (arg : List Char) : List Char :=
  if ' ' ∈ arg then squote :: arg ++ [squote] else arg

/-- Python str.join with a single-space separator, as used by
translate_args_to_script on the rendered arguments. -/
def joinWords : List (List Char) → List Char
  | [] => []
  | [w] => w
  | w :: v :: ws => w ++ ' ' :: joinWords (v :: ws)

/-- translate_args_to_script (clash.py lines 354-361): renders every argument
and joins the results with single spaces. -/
def translate_args_to_script (args : List (List Char)) : List Char :=
  joinWords (args.map renderArg)

/-- The double-quote character. -/
def dquote : Char := Char.ofNat 34

/-- The backslash character. -/
def bslash : Char := Char.ofNat 92

/-- Modelled from the spec: the whitespace characters at which shell word
splitting breaks words (space, tab, carriage return, line feed). -/
def shellWhitespace (c : Char) : Bool :=
  c == ' ' || c == Char.ofNat 9 || c == Char.ofNat 13 || c == Char.ofNat 10

inductive SplitMode
  | normal
  | inSingle
  | inDouble
  deriving DecidableEq, Repr

/-- Modelled from the spec: shell word splitting of a command line ("the joined
line round-trips into the original argument vector under shell-word-splitting").
Not part of the repository; POSIX tokenization as performed by shlex.split,
without expansions: unquoted whitespace separates words; single quotes make
their content literal; double quotes make their content literal except that a
backslash escapes a double quote or a backslash (before any other character
the backslash stays literal); an unquoted backslash makes the next character
literal (backslash-newline line continuation is not modelled); a quote opens a
word even when its content is empty. The word in progress is none when no word
has been started. An unterminated quote or a trailing backslash is a syntax
error, yielding none. -/
def shellSplitAux : SplitMode → Option (List Char) → List Char → Option (List (List Char))
  | SplitMode.normal, cur, [] =>
    some (match cur with | none => [] | some w => [w])
  | SplitMode.inSingle, _, [] => none
  | SplitMode.inDouble, _, [] => none
  | SplitMode.normal, cur, c :: rest =>
    if c = squote then shellSplitAux SplitMode.inSingle (some (cur.getD [])) rest
    else if c = dquote then shellSplitAux SplitMode.inDouble (some (cur.getD [])) rest
    else if c = bslash then
      match rest with
      | [] => none
      | d :: rest2 => shellSplitAux SplitMode.normal (some (cur.getD [] ++ [d])) rest2
    else if shellWhitespace c then
      match cur with
      | none => shellSplitAux SplitMode.normal none rest
      | some w => (shellSplitAux SplitMode.normal none rest).map (w :: ·)
    else shellSplitAux SplitMode.normal (some (cur.getD [] ++ [c])) rest
  | SplitMode.inSingle, cur, c :: rest =>
    if c = squote then shellSplitAux SplitMode.normal cur rest
    else shellSplitAux SplitMode.inSingle (some (cur.getD [] ++ [c])) rest
  | SplitMode.inDouble, cur, c :: rest =>
    if c = dquote then shellSplitAux SplitMode.normal cur rest
    else if c = bslash then
      match rest with
      | [] => none
      | d :: rest2 =>
        if d = dquote ∨ d = bslash then
          shellSplitAux SplitMode.inDouble (some (cur.getD [] ++ [d])) rest2
        else
          shellSplitAux SplitMode.inDouble (some (cur.getD [] ++ [c, d])) rest2
    else shellSplitAux SplitMode.inDouble (some (cur.getD [] ++ [c])) rest

/-- Modelled from the spec: shell word splitting of a whole command line;
none on a tokenization error. -/
def shellSplit (s : List Char) : Option (List (List Char)) :=
  shellSplitAux SplitMode.normal none s

/-- An argument a job script may safely carry through the single-quote-only
quoting of translate_args_to_script: nonempty, free of single quotes, double
quotes and backslashes, and with no whitespace other than the plain space. -/
def safeArg (a : List Char) : Prop :=
  a ≠ [] ∧ ∀ c ∈ a,
    c ≠ squote ∧ c ≠ dquote ∧ c ≠ bslash ∧ (shellWhitespace c = true → c = ' ')

instance (a : List Char) : Decidable (safeArg a) := by
  unfold safeArg
  infer_instance

theorem shellSplitAux_openQuote (cur : Option (List Char)) (s : List Char) :
    shellSplitAux SplitMode.normal cur (squote :: s)
      = shellSplitAux SplitMode.inSingle (some (cur.getD [])) s := by
  rw [shellSplitAux.eq_def]
  simp

theorem shellSplitAux_closeQuote (cur : Option (List Char)) (s : List Char) :
    shellSplitAux SplitMode.inSingle cur (squote :: s)
      = shellSplitAux SplitMode.normal cur s := by
  rw [shellSplitAux.eq_def]
  simp

theorem shellSplitAux_normal_char (c : Char) (hc1 : c ≠ squote) (hc2 : c ≠ dquote)
    (hc3 : c ≠ bslash) (hc4 : shellWhitespace c = false)
    (cur : Option (List Char)) (s : List Char) :
    shellSplitAux SplitMode.normal cur (c :: s)
      = shellSplitAux SplitMode.normal (some (cur.getD [] ++ [c])) s := by
  rw [shellSplitAux.eq_def]
  simp [hc1, hc2, hc3, hc4]

theorem shellSplitAux_normal_space (w s : List Char) :
    shellSplitAux SplitMode.normal (some w) (' ' :: s)
      = (shellSplitAux SplitMode.normal none s).map (w :: ·) := by
  rw [shellSplitAux.eq_def]
  simp [squote, dquote, bslash, shellWhitespace]

theorem shellSplitAux_inSingle_char (c : Char) (hc : c ≠ squote)
    (cur : Option (List Char)) (s : List Char) :
    shellSplitAux SplitMode.inSingle cur (c :: s)
      = shellSplitAux SplitMode.inSingle (some (cur.getD [] ++ [c])) s := by
  rw [shellSplitAux.eq_def]
  simp [hc]

theorem shellSplitAux_normal_end (w : List Char) :
    shellSplitAux SplitMode.normal (some w) [] = some [w] := by
  rw [shellSplitAux.eq_def]

theorem shellSplitAux_quoted (a : List Char) (ha : squote ∉ a) :
    ∀ (w s : List Char),
      shellSplitAux SplitMode.inSingle (some w) (a ++ s)
        = shellSplitAux SplitMode.inSingle (some (w ++ a)) s := by
  induction a with
  | nil => intro w s; simp
  | cons c a ih =>
    intro w s
    have hc : c ≠ squote := fun h => ha (h ▸ List.mem_cons_self c a)
    have ha2 : squote ∉ a := fun h => ha (List.mem_cons_of_mem c h)
    rw [List.cons_append, shellSplitAux_inSingle_char c hc (some w) (a ++ s),
      Option.getD_some, ih ha2]
    congr 2
    simp

theorem shellSplitAux_bare (a : List Char)
    (ha : ∀ c ∈ a, c ≠ squote ∧ c ≠ dquote ∧ c ≠ bslash ∧ shellWhitespace c = false) :
    ∀ (w s : List Char),
      shellSplitAux SplitMode.normal (some w) (a ++ s)
        = shellSplitAux SplitMode.normal (some (w ++ a)) s := by
  induction a with
  | nil => intro w s; simp
  | cons c a ih =>
    intro w s
    obtain ⟨hc1, hc2, hc3, hc4⟩ := ha c (List.mem_cons_self c a)
    have ha2 : ∀ x ∈ a, x ≠ squote ∧ x ≠ dquote ∧ x ≠ bslash ∧ shellWhitespace x = false :=
      fun x hx => ha x (List.mem_cons_of_mem c hx)
    rw [List.cons_append, shellSplitAux_normal_char c hc1 hc2 hc3 hc4 (some w) (a ++ s),
      Option.getD_some, ih ha2]
    congr 2
    simp

theorem shellSplitAux_renderArg (a : List Char) (ha : safeArg a) :
    ∀ (cur : Option (List Char)) (s : List Char),
      shellSplitAux SplitMode.normal cur (renderArg a ++ s)
        = shellSplitAux SplitMode.normal (some (cur.getD [] ++ a)) s := by
  obtain ⟨hne, hch⟩ := ha
  intro cur s
  unfold renderArg
  by_cases hsp : ' ' ∈ a
  · rw [if_pos hsp]
    have hq : squote ∉ a := fun h => (hch squote h).1 rfl
    have h1 : (squote :: a ++ [squote] : List Char) ++ s
        = squote :: (a ++ ([squote] ++ s)) := by simp
    rw [h1, shellSplitAux_openQuote, shellSplitAux_quoted a hq (cur.getD []) ([squote] ++ s),
      List.singleton_append, shellSplitAux_closeQuote]
  · rw [if_neg hsp]
    cases a with
    | nil => exact absurd rfl hne
    | cons c a2 =>
      have hcm := hch c (List.mem_cons_self c a2)
      have hcw : shellWhitespace c = false := by
        cases hwc : shellWhitespace c
        · rfl
        · exact absurd (hcm.2.2.2 hwc ▸ List.mem_cons_self c a2) hsp
      have ha2 : ∀ x ∈ a2, x ≠ squote ∧ x ≠ dquote ∧ x ≠ bslash ∧
          shellWhitespace x = false := by
        intro x hx
        have hxm := hch x (List.mem_cons_of_mem c hx)
        refine ⟨hxm.1, hxm.2.1, hxm.2.2.1, ?_⟩
        cases hwx : shellWhitespace x
        · rfl
        · exact absurd (hxm.2.2.2 hwx ▸ List.mem_cons_of_mem c hx) hsp
      rw [List.cons_append,
        shellSplitAux_normal_char c hcm.1 hcm.2.1 hcm.2.2.1 hcw cur (a2 ++ s),
        shellSplitAux_bare a2 ha2]
      congr 2
      simp

theorem shellSplit_translate (args : List (List Char))
    (h : ∀ a ∈ args, safeArg a) :
    shellSplit (translate_args_to_script args) = some args := by
  induction args with
  | nil => rfl
  | cons a rest ih =>
    have hsafe := h a (List.mem_cons_self a rest)
    have hrest : ∀ b ∈ rest, safeArg b :=
      fun b hb => h b (List.mem_cons_of_mem a hb)
    cases rest with
    | nil =>
      show shellSplitAux SplitMode.normal none (joinWords [renderArg a]) = some [a]
      have h1 : joinWords [renderArg a] = renderArg a ++ [] := by
        simp [joinWords]
      rw [h1, shellSplitAux_renderArg a hsafe none [], Option.getD_none,
        List.nil_append, shellSplitAux_normal_end]
    | cons b rest2 =>
      show shellSplitAux SplitMode.normal none
          (joinWords (renderArg a :: renderArg b :: rest2.map renderArg))
        = some (a :: b :: rest2)
      have h1 : joinWords (renderArg a :: renderArg b :: rest2.map renderArg)
          = renderArg a ++ ' ' :: joinWords (renderArg b :: rest2.map renderArg) := rfl
      rw [h1, shellSplitAux_renderArg a hsafe none _, Option.getD_none,
        List.nil_append, shellSplitAux_normal_space]
      have h2 : shellSplitAux SplitMode.normal none
          (joinWords (renderArg b :: List.map renderArg rest2)) = some (b :: rest2) :=
        ih hrest
      rw [h2]
      rfl

/-- C6: translate_args_to_script quotes exactly the arguments containing a
space, leaves the others bare, and the resulting line shell-splits back to
the original vector. The round-trip half fails when an argument contains a
single-quote character: the argument (in Lean char-list form) a-space-quote-b
is rendered as quote-a-space-quote-b-quote, whose shell tokenization does not
yield the original vector (the embedded quote reopens quoting, left
unterminated at end of line). -/
theorem translate_args_roundtrip_cex :
    shellSplit (translate_args_to_script [[Char.ofNat 97, ' ', squote, Char.ofNat 98]])
      ≠ some [[Char.ofNat 97, ' ', squote, Char.ofNat 98]] := by
  decide

/-- C6 (amended): every argument containing a space is single-quoted, every
other argument is left bare, and for argument vectors whose arguments are
nonempty, free of single quotes, double quotes and backslashes, and contain
no whitespace other than plain spaces, shell-splitting the joined command
line returns the original vector. -/
theorem translate_args_to_script_spec (args : List (List Char))
    (h : ∀ a ∈ args, safeArg a) :
    translate_args_to_script args
        = joinWords (args.map fun a =>
            if ' ' ∈ a then squote :: a ++ [squote] else a) ∧
      shellSplit (translate_args_to_script args) = some args :=
  ⟨rfl, shellSplit_translate args h⟩

/-- Witness for C6 (amended) at the two-argument vector echo, hi-there
(second argument contains a space). -/
theorem translate_args_to_script_spec_witness :
    shellSplit (translate_args_to_script
        [[Char.ofNat 101, Char.ofNat 99], [Char.ofNat 104, ' ', Char.ofNat 105]])
      = some [[Char.ofNat 101, Char.ofNat 99], [Char.ofNat 104, ' ', Char.ofNat 105]] :=
  (translate_args_to_script_spec
    [[Char.ofNat 101, Char.ofNat 99], [Char.ofNat 104, ' ', Char.ofNat 105]]
    (by decide)).2

/-! ## Job.run creation sequence and failure rollback (clash.py lines 447-511)

Job.run creates, inside a try block: the status topic (step 2 in §4.1
numbering), the status subscription (step 3), the instance template (step 4),
and the managed instance group (step 5); it then sets started := true and,
when wait_for_result is requested, calls attach (step 7). The except handler
attempts, in this order: instance-group removal when self.started is set,
topic deletion when self.job_status_topic is set, subscription deletion when
self.job_status_subscription is set (each attempt wrapped in its own
try/except whose failure is only logged), and finally re-raises the original
exception. We simulate the body with a first-failing-step parameter and track
which resources were created and which removals were attempted. -/

inductive Res
  | topic
  | subscription
  | template
  | group
  deriving DecidableEq, Repr

inductive FailPoint
  | topic
  | subscription
  | template
  | group
  | attachWait
  deriving DecidableEq, Repr

structure RunState where
  job_status_topic : Bool
  job_status_subscription : Bool
  started : Bool
  created : List Res
  deriving DecidableEq, Repr

/-- The except handler of Job.run (clash.py lines 488-509): the removal
attempts it makes, in program order, as a function of the state the try
body reached. -/
def rollbackAttempts (st : RunState) : List Res :=
  (if st.started then [Res.group] else []) ++
    (if st.job_status_topic then [Res.topic] else []) ++
      (if st.job_status_subscription then [Res.subscription] else [])

/-- The try body of Job.run (clash.py lines 478-487), simulated with the
first failing step injected as a parameter (none means every step succeeds).
Returns the reached state and the exception escaping the body, if any. -/
def runBody (failAt : Option FailPoint) : RunState × Option FailPoint :=
  let st0 : RunState :=
    { job_status_topic := false, job_status_subscription := false,
      started := false, created := [] }
  if failAt = some FailPoint.topic then (st0, some FailPoint.topic) else
  let st1 := { st0 with job_status_topic := true,
                        created := st0.created ++ [Res.topic] }
  if failAt = some FailPoint.subscription then (st1, some FailPoint.subscription) else
  let st2 := { st1 with job_status_subscription := true,
                        created := st1.created ++ [Res.subscription] }
  if failAt = some FailPoint.template then (st2, some FailPoint.template) else
  let st3 := { st2 with created := st2.created ++ [Res.template] }
  if failAt = some FailPoint.group then (st3, some FailPoint.group) else
  let st4 := { st3 with created := st3.created ++ [Res.group], started := true }
  if failAt = some FailPoint.attachWait then (st4, some FailPoint.attachWait) else
  (st4, none)

structure RunTrace where
  created : List Res
  removalAttempts : List Res
  raised : Option FailPoint
  deriving DecidableEq, Repr

/-- Job.run as a whole: on an exception from the body, the handler runs and
the original exception is re-raised (raise ex, clash.py line 511); on
success nothing is removed and nothing is raised. -/
def runModel (failAt : Option FailPoint) : RunTrace :=
  match runBody failAt with
  | (st, none) => { created := st.created, removalAttempts := [], raised := none }
  | (st, some e) =>
      { created := st.created, removalAttempts := rollbackAttempts st, raised := some e }

/-- C1: the claim states that a failure at step k attempts removal of exactly
the resources created in steps 2..k-1. Counterexample at k = 5 (group
creation fails): the instance template was created in step 4, but its removal
is never attempted by the rollback handler, and the rollback is therefore not
exactly the set of created resources. -/
theorem run_rollback_cex :
    Res.template ∈ (runModel (some FailPoint.group)).created ∧
      Res.template ∉ (runModel (some FailPoint.group)).removalAttempts ∧
      (runModel (some FailPoint.group)).removalAttempts ≠
        (runModel (some FailPoint.group)).created := by
  decide

/-- C1 (amended): for a failure at any creation step k in 2..5, the rollback
attempts removal of exactly the resources created in steps 2..k-1 other than
the instance template, which is never removed on this path, and the original
exception is re-raised unchanged after the cleanup attempts. -/
theorem run_rollback_exact (s : FailPoint) (h : s ≠ FailPoint.attachWait) :
    (runModel (some s)).removalAttempts
        = (runModel (some s)).created.filter (fun r => r ≠ Res.template) ∧
      (runModel (some s)).raised = some s := by
  cases s
  case attachWait => exact absurd rfl h
  all_goals decide

/-- Witness for C1 (amended) at the group-creation failure point. -/
theorem run_rollback_exact_witness :
    (runModel (some FailPoint.group)).removalAttempts
        = (runModel (some FailPoint.group)).created.filter (fun r => r ≠ Res.template) ∧
      (runModel (some FailPoint.group)).raised = some FailPoint.group :=
  run_rollback_exact FailPoint.group (by decide)

/-- C2: for every failure point, the removal attempts of the rollback handler
occur in the order group, then topic, then subscription (each attempt present
only when the corresponding resource exists), and template removal is never
attempted. The order is expressed by the attempts list being the canonical
list group-topic-subscription filtered to its own members. -/
theorem run_rollback_order (s : FailPoint) :
    Res.template ∉ (runModel (some s)).removalAttempts ∧
      (runModel (some s)).removalAttempts
        = [Res.group, Res.topic, Res.subscription].filter
            (fun r => r ∈ (runModel (some s)).removalAttempts) := by
  cases s <;> decide

/-! ## Job.attach and Job._pull_message (clash.py lines 623-654)

Time is discrete, in seconds, starting at 0 when attach is called. A single
status message may become available at an arrival time (the source protocol
assumes exactly one status message per job). Each subscriber.pull blocks for
at most POLLING_INTERVAL_SECONDS = 30 seconds: it returns the message if the
message becomes available inside that window, and otherwise returns nothing
after the full 30 seconds. The while loop checks its condition before each
pull, with Python falsiness of timeout_seconds: a None or zero timeout makes
the condition always true. The loop is fuel-indexed; exhausted fuel means
the call is still blocked. -/

def POLLING_INTERVAL_SECONDS : Nat := 30

/-- The loop condition of attach (clash.py line 632):
not timeout_seconds or (time.time() - start_time) <= timeout_seconds. -/
def timeoutOk : Option Nat → Nat → Bool
  | none, _ => true
  | some T, t => if T = 0 then true else decide (t ≤ T)

/-- Job._pull_message (clash.py lines 639-654) started at time t: returns the
message (identified by its arrival time) and the time at which the pull call
returns. -/
def pullMessage (arrival : Option Nat) (t : Nat) : Option Nat × Nat :=
  match arrival with
  | none => (none, t + POLLING_INTERVAL_SECONDS)
  | some a =>
      if a ≤ t + POLLING_INTERVAL_SECONDS then (some a, max t a)
      else (none, t + POLLING_INTERVAL_SECONDS)

inductive AttachResult
  | received : Nat → AttachResult
  | timedOut : AttachResult
  | running : AttachResult
  deriving DecidableEq, Repr

/-- The while loop of Job.attach (clash.py lines 632-637): at current time t,
check the timeout condition; if it holds, pull once and return the decoded
message if one was received, otherwise loop; if it fails, raise the
timeout error. -/
def attachLoop (timeout arrival : Option Nat) : Nat → Nat → AttachResult
  | 0, _ => AttachResult.running
  | fuel + 1, t =>
    if timeoutOk timeout t then
      match pullMessage arrival t with
      | (some a, _) => AttachResult.received a
      | (none, t2) => attachLoop timeout arrival fuel t2
    else AttachResult.timedOut

/-- Job.attach on a started job, from call time 0. -/
def attach (timeout arrival : Option Nat) (fuel : Nat) : AttachResult :=
  attachLoop timeout arrival fuel 0

theorem attachLoop_received_of_arrival (T a : Nat) (hT : 0 < T) (haT : a ≤ T) :
    ∀ (fuel t : Nat), t ≤ T → t ≤ a → a < t + POLLING_INTERVAL_SECONDS * fuel →
      attachLoop (some T) (some a) fuel t = AttachResult.received a := by
  intro fuel
  induction fuel with
  | zero =>
    intro t _ hta hlt
    exact absurd hlt (by simpa using hta)
  | succ fuel ih =>
    intro t htT hta hlt
    have hok : timeoutOk (some T) t = true := by
      simp [timeoutOk, Nat.pos_iff_ne_zero.mp hT, htT]
    by_cases hwin : a ≤ t + POLLING_INTERVAL_SECONDS
    · simp [attachLoop, hok, pullMessage, hwin]
    · push_neg at hwin
      have : attachLoop (some T) (some a) (fuel + 1) t
          = attachLoop (some T) (some a) fuel (t + POLLING_INTERVAL_SECONDS) := by
        simp [attachLoop, hok, pullMessage, Nat.not_le.mpr hwin]
      rw [this]
      exact ih (t + POLLING_INTERVAL_SECONDS) (le_trans (le_of_lt hwin) haT)
        (le_of_lt hwin) (by rw [Nat.mul_succ] at hlt; omega)

theorem attachLoop_timedOut_of_late (T : Nat) (arrival : Option Nat) (hT : 0 < T)
    (hlate : ∀ x, arrival = some x → T + POLLING_INTERVAL_SECONDS < x) :
    ∀ (fuel t : Nat), T < t + POLLING_INTERVAL_SECONDS * fuel →
      attachLoop (some T) arrival (fuel + 1) t = AttachResult.timedOut := by
  intro fuel
  induction fuel with
  | zero =>
    intro t hlt
    have : timeoutOk (some T) t = false := by
      simp only [POLLING_INTERVAL_SECONDS, Nat.mul_zero, Nat.add_zero] at hlt
      simp [timeoutOk, Nat.pos_iff_ne_zero.mp hT, Nat.not_le.mpr hlt]
    simp [attachLoop, this]
  | succ fuel ih =>
    intro t hlt
    by_cases htT : t ≤ T
    · have hok : timeoutOk (some T) t = true := by
        simp [timeoutOk, Nat.pos_iff_ne_zero.mp hT, htT]
      have hpull : pullMessage arrival t = (none, t + POLLING_INTERVAL_SECONDS) := by
        cases arrival with
        | none => rfl
        | some x =>
          have := hlate x rfl
          simp [pullMessage, Nat.not_le.mpr (by omega : t + POLLING_INTERVAL_SECONDS < x)]
      have : attachLoop (some T) arrival (fuel + 1 + 1) t
          = attachLoop (some T) arrival (fuel + 1) (t + POLLING_INTERVAL_SECONDS) := by
        simp [attachLoop, hok, hpull]
      rw [this]
      exact ih (t + POLLING_INTERVAL_SECONDS) (by rw [Nat.mul_succ] at hlt; omega)
    · have : timeoutOk (some T) t = false := by
        simp [timeoutOk, Nat.pos_iff_ne_zero.mp hT, htT]
      simp [attachLoop, this]

theorem attachLoop_received_sound (T : Nat) (arrival : Option Nat) (a : Nat)
    (hT : 0 < T) :
    ∀ (fuel t : Nat), attachLoop (some T) arrival fuel t = AttachResult.received a →
      arrival = some a ∧ a ≤ T + POLLING_INTERVAL_SECONDS := by
  intro fuel
  induction fuel with
  | zero => intro t h; exact absurd h (by simp [attachLoop])
  | succ fuel ih =>
    intro t h
    by_cases hok : timeoutOk (some T) t = true
    · have htT : t ≤ T := by
        by_contra hgt
        simp [timeoutOk, Nat.pos_iff_ne_zero.mp hT, hgt] at hok
      rcases harr : arrival with _ | x
      · rw [harr] at h
        simp only [attachLoop, hok, if_true, pullMessage] at h
        exact absurd (ih _ (harr ▸ h)) (by simp [harr])
      · rw [harr] at h
        by_cases hwin : x ≤ t + POLLING_INTERVAL_SECONDS
        · simp only [attachLoop, hok, if_true, pullMessage, hwin] at h
          have hx : x = a := by
            by_contra hne
            simp [hne] at h
          exact ⟨by rw [hx], by omega⟩
        · simp only [attachLoop, hok, if_true, pullMessage, if_neg hwin] at h
          exact harr ▸ ih _ (harr ▸ h)
    · have : timeoutOk (some T) t = false := by
        cases hv : timeoutOk (some T) t
        · rfl
        · exact absurd hv hok
      exact absurd h (by simp [attachLoop, this])

/-- C3: the claim states attach with timeout T never returns a status message
received after T seconds have elapsed. Counterexample with T = 1: the first
pull starts immediately and blocks for up to 30 seconds, so a message arriving
at second 25 is returned even though 25 > 1. -/
theorem attach_after_timeout_cex :
    attach (some 1) (some 25) 1 = AttachResult.received 25 ∧ 1 < 25 := by
  decide

/-- C3 (amended): for a positive timeout T, attach returns the status message
if it arrives within T seconds; it raises the timeout error when no message
arrives within T + 30 seconds (the per-pull window); and any returned message
arrived within T + 30 seconds, not necessarily within T. -/
theorem attach_timeout_spec (T a fuel : Nat) (arrival : Option Nat) (hT : 0 < T) :
    (arrival = some a → a ≤ T → attach (some T) arrival (T + 1) = AttachResult.received a) ∧
      ((∀ x, arrival = some x → T + POLLING_INTERVAL_SECONDS < x) →
        attach (some T) arrival (T + 1) = AttachResult.timedOut) ∧
      (attach (some T) arrival fuel = AttachResult.received a →
        arrival = some a ∧ a ≤ T + POLLING_INTERVAL_SECONDS) := by
  refine ⟨fun harr haT => ?_, fun hlate => ?_, fun h => ?_⟩
  · rw [harr]
    exact attachLoop_received_of_arrival T a hT haT (T + 1) 0 (Nat.zero_le T)
      (Nat.zero_le a) (by simp [POLLING_INTERVAL_SECONDS]; omega)
  · exact attachLoop_timedOut_of_late T arrival hT hlate T 0
      (by simp [POLLING_INTERVAL_SECONDS]; omega)
  · exact attachLoop_received_sound T arrival a hT fuel 0 h

/-- Witness for C3 (amended): with timeout 1 and a message arriving at second
1, attach returns it. -/
theorem attach_timeout_spec_witness :
    attach (some 1) (some 1) 2 = AttachResult.received 1 :=
  (attach_timeout_spec 1 1 5 (some 1) (by decide)).1 rfl (by decide)

theorem attachLoop_zero_eq_none (arrival : Option Nat) :
    ∀ (fuel t : Nat), attachLoop (some 0) arrival fuel t = attachLoop none arrival fuel t := by
  intro fuel
  induction fuel with
  | zero => intro t; rfl
  | succ fuel ih =>
    intro t
    have h0 : timeoutOk (some 0) t = true := by simp [timeoutOk]
    have h1 : timeoutOk none t = true := rfl
    cases hp : pullMessage arrival t with
    | mk msg t2 =>
      cases msg with
      | none => simp [attachLoop, h0, h1, hp, ih]
      | some a => simp [attachLoop, h0, h1, hp]

theorem attachLoop_zero_never_timedOut (arrival : Option Nat) :
    ∀ (fuel t : Nat), attachLoop (some 0) arrival fuel t ≠ AttachResult.timedOut := by
  intro fuel
  induction fuel with
  | zero => intro t; simp [attachLoop]
  | succ fuel ih =>
    intro t
    have h0 : timeoutOk (some 0) t = true := by simp [timeoutOk]
    cases hp : pullMessage arrival t with
    | mk msg t2 =>
      cases msg with
      | none => simpa [attachLoop, h0, hp] using ih t2
      | some a => simp [attachLoop, h0, hp]

theorem attachLoop_none_running (fuel : Nat) :
    ∀ t : Nat, attachLoop (some 0) none fuel t = AttachResult.running := by
  induction fuel with
  | zero => intro t; rfl
  | succ fuel ih =>
    intro t
    simpa [attachLoop, timeoutOk, pullMessage] using ih (t + POLLING_INTERVAL_SECONDS)

/-- C9: attach with timeout 0 behaves exactly as attach with no timeout
(the Python loop condition tests the falsiness of timeout_seconds): the loop
never raises the timeout error, and when no message ever arrives it stays
blocked for any amount of fuel. -/
theorem attach_zero_timeout (arrival : Option Nat) (fuel : Nat) :
    attach (some 0) arrival fuel = attach none arrival fuel ∧
      attach (some 0) arrival fuel ≠ AttachResult.timedOut ∧
      attach (some 0) none fuel = AttachResult.running :=
  ⟨attachLoop_zero_eq_none arrival fuel 0,
    attachLoop_zero_never_timedOut arrival fuel 0,
    attachLoop_none_running fuel 0⟩

/-! ## Job.clean_up (clash.py lines 574-605)

clean_up does nothing unless self.started is set. Otherwise it loops: it
lists the active instance groups (one provider call per poll), and while the
job's name is among them it sleeps POLLING_INTERVAL_SECONDS = 30 seconds and
polls again; once the name is absent it deletes the instance template. Polls
are indexed 0, 1, 2, ...; poll j happens at time 30 * j, and the template
deletion is issued right after the successful poll, at the same time. The
provider's group listing over time is a parameter groupsAt. -/

inductive GCall
  | listInstanceGroups : Nat → GCall
  | deleteInstanceTemplate : Nat → GCall
  deriving DecidableEq, Repr

/-- The loop of Job._wait_for_instance_group_removal (clash.py lines 574-581):
starting at poll index k, returns the first poll index at which the job name
is absent from the listed groups, or none if the fuel runs out first. -/
def waitForGroupRemoval (name : String) (groupsAt : Nat → List String) :
    Nat → Nat → Option Nat
  | 0, _ => none
  | fuel + 1, k =>
    if name ∈ groupsAt k then waitForGroupRemoval name groupsAt fuel (k + 1)
    else some k

/-- The provider calls made by Job.clean_up (clash.py lines 583-593): nothing
when the job never started; otherwise the list-groups polls at 30-second
intervals followed, once the group is gone, by the template deletion. -/
def cleanUpCalls (started : Bool) (name : String) (groupsAt : Nat → List String)
    (fuel : Nat) : List GCall :=
  if started then
    match waitForGroupRemoval name groupsAt fuel 0 with
    | some k =>
        ((List.range (k + 1)).map fun j =>
          GCall.listInstanceGroups (POLLING_INTERVAL_SECONDS * j)) ++
          [GCall.deleteInstanceTemplate (POLLING_INTERVAL_SECONDS * k)]
    | none =>
        (List.range fuel).map fun j =>
          GCall.listInstanceGroups (POLLING_INTERVAL_SECONDS * j)
  else []

theorem waitForGroupRemoval_first (name : String) (groupsAt : Nat → List String)
    (k : Nat) (hk : name ∉ groupsAt k) :
    ∀ (fuel k0 : Nat), k0 ≤ k → (∀ j, k0 ≤ j → j < k → name ∈ groupsAt j) →
      k < k0 + fuel → waitForGroupRemoval name groupsAt fuel k0 = some k := by
  intro fuel
  induction fuel with
  | zero => intro k0 hle _ hlt; omega
  | succ fuel ih =>
    intro k0 hle hbefore hlt
    rcases Nat.lt_or_ge k0 k with hcase | hcase
    · have hmem : name ∈ groupsAt k0 := hbefore k0 (le_refl k0) hcase
      simp only [waitForGroupRemoval, if_pos hmem]
      exact ih (k0 + 1) hcase (fun j hj hjk => hbefore j (by omega) hjk) (by omega)
    · have hk0 : k0 = k := le_antisymm hle hcase
      simp only [waitForGroupRemoval, hk0, if_neg hk]

/-- C8: clean_up is a no-op when the job never started; otherwise, when the
job's named group first disappears from the listing at poll k (present at
every earlier poll), clean_up makes exactly the list-groups calls at times
0, 30, ..., 30k and then a single template deletion at time 30k, after the
group is gone. -/
theorem clean_up_spec (name : String) (groupsAt : Nat → List String)
    (k fuel : Nat) (hk : name ∉ groupsAt k)
    (hbefore : ∀ j, j < k → name ∈ groupsAt j) (hfuel : k < fuel) :
    cleanUpCalls false name groupsAt fuel = [] ∧
      cleanUpCalls true name groupsAt fuel =
        ((List.range (k + 1)).map fun j =>
          GCall.listInstanceGroups (POLLING_INTERVAL_SECONDS * j)) ++
          [GCall.deleteInstanceTemplate (POLLING_INTERVAL_SECONDS * k)] := by
  constructor
  · rfl
  · have hw : waitForGroupRemoval name groupsAt fuel 0 = some k :=
      waitForGroupRemoval_first name groupsAt k hk fuel 0 (Nat.zero_le k)
        (fun j _ hjk => hbefore j hjk) (by omega)
    simp [cleanUpCalls, hw]

/-- Witness for C8 with a group that is listed for polls 0 and 1 and gone at
poll 2. -/
theorem clean_up_spec_witness :
    cleanUpCalls true "g" (fun j => if j < 2 then ["g"] else []) 3 =
      [GCall.listInstanceGroups 0, GCall.listInstanceGroups 30,
        GCall.listInstanceGroups 60, GCall.deleteInstanceTemplate 60] := by
  have h := clean_up_spec "g" (fun j => if j < 2 then ["g"] else []) 2 3
    (by decide) (by decide) (by decide)
  rw [h.2]
  decide

/-! ## Not-started guards of on_finish, attach and clean_up
(clash.py lines 547-552, 627-628, 583-593)

on_finish and attach raise ValueError("The job is not running") before
touching any provider client when self.started is unset; clean_up checks
self.started and silently returns. Each operation is modelled as the pair of
its outcome and the provider calls it makes; the calls of the started branch
are summarized by the first provider interaction each method performs. -/

inductive ClashErr
  | notRunning
  deriving DecidableEq, Repr

inductive ProviderCall
  | subscribeToSubscription
  | pullFromSubscription
  | listGroupsOfZone
  | deleteTemplateOfJob
  deriving DecidableEq, Repr

/-- Job.on_finish (clash.py lines 547-561). -/
def onFinishModel (started : Bool) : Except ClashErr Unit × List ProviderCall :=
  if started then (Except.ok (), [ProviderCall.subscribeToSubscription])
  else (Except.error ClashErr.notRunning, [])

/-- The started guard and first provider interaction of Job.attach
(clash.py lines 627-633). -/
def attachGuardModel (started : Bool) : Except ClashErr Unit × List ProviderCall :=
  if started then (Except.ok (), [ProviderCall.pullFromSubscription])
  else (Except.error ClashErr.notRunning, [])

/-- The started guard and provider interactions of Job.clean_up
(clash.py lines 583-593): when never started it is a silent no-op. -/
def cleanUpGuardModel (started : Bool) : Except ClashErr Unit × List ProviderCall :=
  if started then
    (Except.ok (), [ProviderCall.listGroupsOfZone, ProviderCall.deleteTemplateOfJob])
  else (Except.ok (), [])

/-- C7: the claim states clean_up on a never-started job fails with a
not-started error. Counterexample: clean_up returns without error (it is a
silent no-op guarded by the if self.started check). -/
theorem clean_up_not_started_cex :
    (cleanUpGuardModel false).1 = Except.ok () ∧
      (cleanUpGuardModel false).1 ≠ Except.error ClashErr.notRunning := by
  refine ⟨rfl, ?_⟩
  simp [cleanUpGuardModel]

/-- C7 (amended): on a never-started job, on_finish and attach fail with the
not-running error and perform no provider calls, while clean_up performs no
provider calls and returns without raising. -/
theorem not_started_guards :
    onFinishModel false = (Except.error ClashErr.notRunning, []) ∧
      attachGuardModel false = (Except.error ClashErr.notRunning, []) ∧
      cleanUpGuardModel false = (Except.ok (), []) :=
  ⟨rfl, rfl, rfl⟩

/-! ## JobGroup.wait (clash.py lines 326-335)

wait polls the shared status-code list once per second until its length
equals the number of launched jobs, then returns whether every recorded code
equals 0. The code list over time is a parameter codesAt (the listener
threads only ever append to it); polls happen at times 0, 1, 2, ...; fuel
bounds the number of polls, and none means the call is still blocked. -/

/-- The loop and return value of JobGroup.wait: n is len(self.running_jobs),
codesAt t is self.jobs_status_codes as read at second t. -/
def waitLoop (n : Nat) (codesAt : Nat → List Int) : Nat → Nat → Option Bool
  | 0, _ => none
  | fuel + 1, t =>
    if (codesAt t).length = n then some ((codesAt t).all fun code => code == 0)
    else waitLoop n codesAt fuel (t + 1)

/-- JobGroup.wait from call time 0. -/
def waitModel (n : Nat) (codesAt : Nat → List Int) (fuel : Nat) : Option Bool :=
  waitLoop n codesAt fuel 0

theorem waitLoop_stabilized (n : Nat) (codesAt : Nat → List Int) (t0 : Nat)
    (hN : (codesAt t0).length = n)
    (hmono : ∀ t, t ≤ t0 → ∃ u, codesAt t ++ u = codesAt t0) :
    ∀ (fuel t : Nat), t ≤ t0 → t0 < t + fuel →
      waitLoop n codesAt fuel t = some ((codesAt t0).all fun code => code == 0) := by
  intro fuel
  induction fuel with
  | zero => intro t hle hlt; omega
  | succ fuel ih =>
    intro t hle hlt
    by_cases hlen : (codesAt t).length = n
    · have hct : codesAt t = codesAt t0 := by
        obtain ⟨u, hu⟩ := hmono t hle
        have hulen : u.length = 0 := by
          have := congrArg List.length hu
          simp only [List.length_append] at this
          omega
        rw [← hu, List.length_eq_zero.mp hulen, List.append_nil]
      simp only [waitLoop, hct]
      rw [if_pos hN]
    · have htne : t ≠ t0 := fun h => hlen (h ▸ hN)
      simp only [waitLoop, if_neg hlen]
      exact ih (t + 1) (by omega) (by omega)

theorem waitLoop_length_at_return (n : Nat) (codesAt : Nat → List Int) :
    ∀ (fuel t : Nat) (b : Bool), waitLoop n codesAt fuel t = some b →
      ∃ s, (codesAt s).length = n ∧ b = ((codesAt s).all fun code => code == 0) := by
  intro fuel
  induction fuel with
  | zero => intro t b h; exact absurd h (by simp [waitLoop])
  | succ fuel ih =>
    intro t b h
    by_cases hlen : (codesAt t).length = n
    · simp only [waitLoop, if_pos hlen, Option.some.injEq] at h
      exact ⟨t, hlen, h.symm⟩
    · simp only [waitLoop, if_neg hlen] at h
      exact ih (t + 1) b h

/-- C4: once all n launched jobs have reported (the code list stabilizes with
exactly n entries, having grown only by appends), wait returns, and it
returns true exactly when every recorded code is 0; moreover wait can only
return at a moment when the code list has exactly n entries, whose
conjunction-of-zero-tests is the returned value. -/
theorem jobGroup_wait_spec (n : Nat) (codesAt : Nat → List Int) (t0 fuel : Nat)
    (hN : (codesAt t0).length = n)
    (hmono : ∀ t, t ≤ t0 → ∃ u, codesAt t ++ u = codesAt t0)
    (hfuel : t0 < fuel) :
    waitModel n codesAt fuel = some ((codesAt t0).all fun code => code == 0) ∧
      (((codesAt t0).all fun code => code == 0) = true ↔
        ∀ code ∈ codesAt t0, code = 0) ∧
      (∀ (f : Nat) (b : Bool), waitModel n codesAt f = some b →
        ∃ s, (codesAt s).length = n ∧
          b = ((codesAt s).all fun code => code == 0)) := by
  refine ⟨?_, ?_, ?_⟩
  · exact waitLoop_stabilized n codesAt t0 hN hmono fuel 0 (Nat.zero_le t0)
      (by omega)
  · simp [List.all_eq_true]
  · intro f b h
    exact waitLoop_length_at_return n codesAt f 0 b h

/-- Witness for C4: two launched jobs whose codes 0 and 0 are both present
from the start; wait returns true. -/
theorem jobGroup_wait_spec_witness :
    waitModel 2 (fun _ => ([0, 0] : List Int)) 1 = some true :=
  (jobGroup_wait_spec 2 (fun _ => ([0, 0] : List Int)) 0 1
    rfl (fun t ht => ⟨[], rfl⟩) (by decide)).1

/-- C10: on a JobGroup with no launched jobs (run not called, or called with
no specs), the code list is empty and len(running_jobs) = 0, so the very
first length check succeeds and wait returns true immediately, the
conjunction over the empty code list. -/
theorem jobGroup_wait_empty (codesAt : Nat → List Int) (h0 : codesAt 0 = [])
    (fuel : Nat) :
    waitModel 0 codesAt (fuel + 1) = some true := by
  simp [waitModel, waitLoop, h0]

/-- Witness for C10: a group with no jobs and the never-growing empty code
list. -/
theorem jobGroup_wait_empty_witness :
    waitModel 0 (fun _ => ([] : List Int)) 1 = some true :=
  jobGroup_wait_empty (fun _ => ([] : List Int)) rfl 0

/-! ## Job names launched by JobGroup.run
(clash.py lines 310-324, 371-392, 276-279)

JobGroup.run calls the factory with name_prefix = the group name, a dash and
the spec index. Job.__init__ receives no explicit name, so it generates
clash-job- followed by the first 16 characters of a fresh uuid string, and
prepends name_prefix and a dash when the prefix is truthy (a nonempty
string). The uuid strings are a parameter. -/

/-- Job.__init__ name computation (clash.py lines 387-392); uuidStr models
str(uuid.uuid1()), and an empty-string name or name_prefix is falsy in
Python, hence treated like None. -/
def jobName (name : Option String) (namePre : Option String)
    (uuidStr : String) : String :=
  let base := "clash-job-" ++ uuidStr.take 16
  let generated :=
    match namePre with
    | some p => if p = "" then base else p ++ "-" ++ base
    | none => base
  match name with
  | some n => if n = "" then generated else n
  | none => generated

/-- The name_prefix JobGroup.run passes to the factory for spec index i
(clash.py line 315). -/
def groupNamePre (groupName : String) (i : Nat) : String :=
  groupName ++ "-" ++ toString i

/-- The name of the job JobGroup.run launches for spec index i. -/
def groupJobName (groupName : String) (i : Nat) (uuidStr : String) : String :=
  jobName none (some (groupNamePre groupName i)) uuidStr

/-- The names of the jobs launched by JobGroup.run for n specs, with uuids i
the uuid string drawn for spec i. -/
def groupRunNames (groupName : String) (n : Nat) (uuids : Nat → String) :
    List String :=
  (List.range n).map fun i => groupJobName groupName i (uuids i)

theorem groupNamePre_ne_empty (groupName : String) (i : Nat) :
    groupNamePre groupName i ≠ "" := by
  intro h
  have hlen := congrArg String.length h
  rw [groupNamePre] at hlen
  simp only [String.length_append] at hlen
  have hdash : ("-" : String).length = 1 := rfl
  have hemp : ("" : String).length = 0 := rfl
  omega

/-- C5: the claim states JobGroup.run launches the i-th job with name exactly
group-dash-i. Counterexample: a group named batch launches its 0-th job (with
uuid string starting 1f3d) under the name batch-0-clash-job-1f3d, not
batch-0. -/
theorem group_job_name_cex :
    groupJobName "batch" 0 "1f3d" = "batch-0-clash-job-1f3d" ∧
      groupJobName "batch" 0 "1f3d" ≠ "batch-0" := by
  constructor
  · rfl
  · decide

/-- C5 (amended): JobGroup.run launches the i-th job with name_prefix
group-dash-i, and the launched job's actual name is that prefix followed by
-clash-job- and the first 16 characters of a fresh uuid string. -/
theorem group_run_names (groupName : String) (n : Nat) (uuids : Nat → String) :
    groupRunNames groupName n uuids
      = (List.range n).map fun i =>
          groupName ++ "-" ++ toString i ++ "-clash-job-" ++ (uuids i).take 16 := by
  unfold groupRunNames
  refine List.map_congr_left fun i _ => ?_
  show jobName none (some (groupNamePre groupName i)) (uuids i) = _
  simp only [jobName]
  rw [if_neg (groupNamePre_ne_empty groupName i)]
  have hlit : ("-" : String) ++ "clash-job-" = "-clash-job-" := rfl
  simp only [groupNamePre, String.append_assoc]
  rw [← hlit, String.append_assoc]

end Clash
